import Mathlib

/-!
Verification of the OSS storage adapter (rocks-strata, `ossstorage` package).

The Go source is shallowly embedded: paths, keys and header values are lists
of characters (`Str`), so that Go's byte-indexed slicing (`path[len(prefix)+1:]`)
is `List.drop`; provider calls (`bucket.List`, `bucket.GetResponse`,
`bucket.Put`, `bucket.Del`, `bucket.PutBucket`) are passed in as oracle
functions returning `Except` values, an error being its message string, which
is all the adapter ever inspects. `Put` and `NewOSSStorage` additionally
report the provider requests they issue, so that statements about what is
sent on the wire (content type, ACL, creation requests) can be made.
-/

/-- Strings as lists of characters: Go slices strings by index, which is
`List.drop`/`List.take` here. -/
abbrev Str := List Char

/-- The `OSSStorage` struct. The provider client and bucket handle are kept
abstract (the bucket by its name); `pre` is the source's `prefix` field. -/
structure OSSStorage where
  bucket : Str
  region : Str
  pre : Str

/-- Source `addPrefix`: `s.prefix + "/" + path`. -/
def OSSStorage.addPrefix (s : OSSStorage) (path : Str) : Str :=
  s.pre ++ [ '/' ] ++ path

/-- Source `removePrefix`: `path[len(s.prefix)+1:]`. -/
def OSSStorage.removePrefix (s : OSSStorage) (path : Str) : Str :=
  path.drop (s.pre.length + 1)

/-- One entry of a provider list response (`oss.Object`); the adapter only
reads its `Key` field. -/
structure Obj where
  key : Str

/-- A provider list response: the ordered entries and the truncation flag. -/
structure ListResp where
  contents : List Obj
  isTruncated : Bool

/-- The provider's `bucket.List` endpoint as an oracle: arguments are
(prefix, delimiter, marker, maxKeys), the result a page or an error message. -/
abbrev ListOp := Str → Str → Str → Int → Except String ListResp

/-- Outcome of the adapter's `List`: the items, an error, or the runtime
panic that Go's `items[len(items)-1]` raises on an empty slice. -/
inductive ListOutcome
  | ok (items : List Str)
  | err (e : String)
  | panics
deriving DecidableEq

/-- The loop body of source `List`: while `maxSize > 0`, request at most
min(maxSize, 1000) keys, subtract the request size from the budget, append
the returned keys with the prefix stripped, and either continue from the
last appended item (re-prefixed) when the page is truncated or stop. -/
def listLoop (s : OSSStorage) (op : ListOp) (pfx marker : Str) (maxSize : Int)
    (items : List Str) : ListOutcome :=
  if h : 0 < maxSize then
    let maxReqSize : Int := if maxSize < 1000 then maxSize else 1000
    match op pfx [] marker maxReqSize with
    | .error e => .err e
    | .ok contents =>
      let items2 := items ++ contents.contents.map (fun o => s.removePrefix o.key)
      if contents.isTruncated then
        match items2.getLast? with
        | none => .panics
        | some lastItem =>
            listLoop s op pfx (s.addPrefix lastItem) (maxSize - maxReqSize) items2
      else .ok items2
  else .ok items
termination_by maxSize.toNat
decreasing_by
  simp_wf
  split <;> omega

/-- Request sizes that the `List` loop sends to the provider, in order: the
same recursion as `listLoop`, recording the `maxKeys` argument of each
`bucket.List` call it performs. -/
def listRequestSizes (s : OSSStorage) (op : ListOp) (pfx marker : Str)
    (maxSize : Int) (items : List Str) : List Int :=
  if h : 0 < maxSize then
    let maxReqSize : Int := if maxSize < 1000 then maxSize else 1000
    match op pfx [] marker maxReqSize with
    | .error _ => [maxReqSize]
    | .ok contents =>
      let items2 := items ++ contents.contents.map (fun o => s.removePrefix o.key)
      if contents.isTruncated then
        match items2.getLast? with
        | none => [maxReqSize]
        | some lastItem =>
            maxReqSize ::
              listRequestSizes s op pfx (s.addPrefix lastItem) (maxSize - maxReqSize) items2
      else [maxReqSize]
  else []
termination_by maxSize.toNat
decreasing_by
  simp_wf
  split <;> omega

/-- Modelled from the spec: the provider's list endpoint over the ordered
keys existing under the queried prefix. It returns the keys strictly after
the marker position; `afterMarker` resumes after the (first) occurrence of
the marker key, the empty marker meaning the start. -/
def afterMarker (keys : List Str) (marker : Str) : List Str :=
  if marker = [] then keys
  else
    match keys with
    | [] => []
    | k :: rest => if k = marker then rest else afterMarker rest marker

/-- Modelled from the spec: a well-behaved provider holding `keys` (in
provider order) under the queried prefix. A request returns the first
min(maxKeys, 1000) keys after the marker — 1000 is the provider-side page
ceiling — and flags truncation exactly when further keys remain. -/
def ossProvider (keys : List Str) : ListOp := fun _ _ marker maxKeys =>
  let n := min maxKeys.toNat 1000
  let avail := afterMarker keys marker
  .ok ⟨(avail.take n).map Obj.mk, decide (n < avail.length)⟩

/-- Errors the adapter can hand back. A provider or IO error is carried by
its message (`provider`); `notFound` is `strata.ErrNotFound(path)`, modelled
from the spec as the typed NotFoundError carrying the path it is given;
`msg` is `errors.New`; `hexLength`/`hexChar` are the errors of Go's
`hex.DecodeString` (odd-length input, non-hexadecimal character). -/
inductive Err
  | provider (m : String)
  | notFound (path : Str)
  | msg (text : String)
  | hexLength
  | hexChar (c : Char)
deriving DecidableEq

/-- A provider read response (`bucket.GetResponse`): the header map as an
association list and the body bytes. -/
structure GetResp where
  header : List (String × List Str)
  body : List Nat

/-- Go `strings.TrimPrefix`: drop `pre` from the front when it is there. -/
def trimPrefix (str pre : Str) : Str :=
  if pre <+: str then str.drop pre.length else str

/-- Go `strings.TrimSuffix`: drop `suf` from the end when it is there. -/
def trimSuffix (str suf : Str) : Str :=
  if suf <:+ str then str.take (str.length - suf.length) else str

/-- Go `hex` package digit decoding: value of one hexadecimal character. -/
def fromHexChar (c : Char) : Option Nat :=
  if '0' ≤ c ∧ c ≤ '9' then some (c.toNat - '0'.toNat)
  else if 'a' ≤ c ∧ c ≤ 'f' then some (c.toNat - 'a'.toNat + 10)
  else if 'A' ≤ c ∧ c ≤ 'F' then some (c.toNat - 'A'.toNat + 10)
  else none

/-- Go `hex.DecodeString`: decode pairs of hexadecimal characters; a
non-hexadecimal character in a complete pair errors first, a dangling odd
character is `ErrLength`. -/
def hexDecode : Str → Except Err (List Nat)
  | [] => .ok []
  | [_] => .error .hexLength
  | a :: b :: rest =>
    match fromHexChar a with
    | none => .error (.hexChar a)
    | some ha =>
      match fromHexChar b with
      | none => .error (.hexChar b)
      | some hb => (hexDecode rest).map fun bytes => (16 * ha + hb) :: bytes

/-- Modelled from the spec: `strata.NewChecksummingReader` pairs the byte
stream with the expected digest (the ChecksumEnvelope of spec section 4.3);
its end-of-stream verification behavior is not needed by the claims. -/
structure ChecksummingReader where
  body : List Nat
  checksum : List Nat
deriving DecidableEq

/-- The provider not-found message that `Get` compares against. -/
def noSuchKeyText : String := "The specified key does not exist."

/-- Source `Get`: prefix the path, issue the read; a provider error whose
message is exactly `noSuchKeyText` becomes `ErrNotFound(path)` (with the
prefixed path), any other error propagates unchanged. On success the `Etag`
header must be present and non-empty; its first value, with one leading and
one trailing quote trimmed, is hex-decoded into the expected checksum, and
the body is returned wrapped with that checksum. -/
def OSSStorage.Get (s : OSSStorage) (getResponse : Str → Except String GetResp)
    (path : Str) : Except Err ChecksummingReader :=
  let path := s.addPrefix path
  match getResponse path with
  | .error e =>
      .error (if e = noSuchKeyText then .notFound path else .provider e)
  | .ok resp =>
    match resp.header.lookup "Etag" with
    | none => .error (.msg "No Etag header")
    | some etag =>
      if etag.length = 0 then .error (.msg "Etag header is empty")
      else
        match hexDecode (trimSuffix (trimPrefix etag.head! [ '\"' ]) [ '\"' ]) with
        | .error e => .error e
        | .ok checksum => .ok ⟨resp.body, checksum⟩

/-- The enumerated access-control values (`oss.ACL` is a string type). -/
abbrev ACL := Str

/-- Go `oss.Private`. -/
def ossPrivate : ACL := "private".data

/-- Go `oss.PublicRead`. -/
def ossPublicRead : ACL := "public-read".data

/-- Go `oss.PublicReadWrite`. -/
def ossPublicReadWrite : ACL := "public-read-write".data

/-- A write request as handed to `bucket.Put(path, data, contType, perm)`. -/
structure PutReq where
  key : Str
  data : List Nat
  contType : String
  perm : ACL
deriving DecidableEq

/-- Source `Put`: prefix the path and issue one write request with content
type `application/octet-stream` and permission `oss.Private`. The second
component records the requests sent to the provider. -/
def OSSStorage.Put (s : OSSStorage) (putOp : PutReq → Except String Unit)
    (path : Str) (data : List Nat) : Except Err Unit × List PutReq :=
  let path := s.addPrefix path
  let req : PutReq := ⟨path, data, "application/octet-stream", ossPrivate⟩
  ((match putOp req with
    | .error e => Except.error (.provider e)
    | .ok _ => Except.ok ()),
   [req])

/-- Source `PutReader`: read the whole reader into memory first (the oracle
`readAll` is the outcome of `ioutil.ReadAll`); on a read error return it
without issuing any write, otherwise delegate to `Put` on the bytes read. -/
def OSSStorage.PutReader (s : OSSStorage) (putOp : PutReq → Except String Unit)
    (readAll : Except String (List Nat)) (path : Str) :
    Except Err Unit × List PutReq :=
  match readAll with
  | .error e => (.error (.provider e), [])
  | .ok data => s.Put putOp path data

/-- Source `Delete`: prefix the path and pass the provider's answer to
`bucket.Del` through unchanged (no not-found reclassification). -/
def OSSStorage.Delete (s : OSSStorage) (del : Str → Except String Unit)
    (path : Str) : Except Err Unit :=
  let path := s.addPrefix path
  match del path with
  | .error e => .error (.provider e)
  | .ok _ => .ok ()

/-- Source `NewOSSStorage`: probe bucket existence with a one-key listing
`bucket.List("", "/", "", 1)`; on any probe error attempt `PutBucket` with
the configured ACL, failing construction if that also fails. The second
component records whether a bucket-creation request was issued. -/
def NewOSSStorage (op : ListOp) (putBucket : ACL → Except String Unit)
    (bucketName pfx region : Str) (bucketACL : ACL) :
    Except String OSSStorage × Bool :=
  match op [] [ '/' ] [] 1 with
  | .ok _ => (.ok ⟨bucketName, region, pfx⟩, false)
  | .error _ =>
    match putBucket bucketACL with
    | .ok _ => (.ok ⟨bucketName, region, pfx⟩, true)
    | .error e => (.error e, true)

/-- Source `Lock`: not implemented, always succeeds. -/
def OSSStorage.Lock (_ : OSSStorage) (_ : Str) : Except Err Unit := .ok ()

/-- Source `Unlock`: not implemented, always succeeds. -/
def OSSStorage.Unlock (_ : OSSStorage) (_ : Str) : Except Err Unit := .ok ()

/-- Request sizes issued by a full `List` call. -/
def listRequests (s : OSSStorage) (op : ListOp) (pfx : Str)
    (maxSize : Int) : List Int :=
  listRequestSizes s op (s.addPrefix pfx) [] maxSize []

/-- Source `List`: prefix the queried prefix, start with an empty marker and
an empty item list, and run the loop (`pathSeparator` is the empty string). -/
def OSSStorage.List (s : OSSStorage) (op : ListOp) (pfx : Str) (maxSize : Int) :
    ListOutcome :=
  listLoop s op (s.addPrefix pfx) [] maxSize []

/-- A concrete storage handle used to instantiate the theorems. -/
def sampleStorage : OSSStorage := ⟨"bucket".data, "region".data, "backup".data⟩

/-- Concrete logical paths used to instantiate the pagination theorems. -/
def samplePaths : List Str := ["a".data, "b".data, "c".data]

/-- A concrete single-page provider answer for instantiating the loop-step
statement. -/
def samplePage : ListResp := ⟨[Obj.mk "backup/a".data], false⟩

/-- A provider oracle answering every request with `samplePage`. -/
def sampleListOp : ListOp := fun _ _ _ _ => .ok samplePage

/-- A provider oracle answering every request with a truncated empty page. -/
def truncEmptyOp : ListOp := fun _ _ _ _ => .ok ⟨[], true⟩

/-- A concrete successful read response used to instantiate the theorems. -/
def sampleResp : GetResp := ⟨[("Etag", ["\"00ff\"".data])], [1, 2, 3]⟩

/-- A read oracle answering every request with `sampleResp`. -/
def sampleGetResponse : Str → Except String GetResp := fun _ => .ok sampleResp

/-- A read oracle answering every request with the provider not-found
message. -/
def notFoundGet : Str → Except String GetResp := fun _ => .error noSuchKeyText

/-! Helper lemmas. -/

/-- Stripping the prefix undoes prefixing, for every path. -/
theorem removePrefix_addPrefix (s : OSSStorage) (path : Str) :
    s.removePrefix (s.addPrefix path) = path := by
  have h : (s.pre ++ [ '/' ]).length = s.pre.length + 1 := by simp
  rw [OSSStorage.addPrefix, OSSStorage.removePrefix, ← h, List.drop_left]

/-- A prefixed key is never the empty string. -/
theorem addPrefix_ne_nil (s : OSSStorage) (p : Str) : s.addPrefix p ≠ [] := by
  simp [OSSStorage.addPrefix]

/-- The request size the loop computes, as a natural number. -/
theorem maxReq_toNat (m : Int) (hm : 0 < m) :
    (if m < 1000 then m else (1000 : Int)).toNat = min m.toNat 1000 := by
  split <;> omega

/-- Resuming after a marker yields a suffix of the key list. -/
theorem afterMarker_suffix (keys : List Str) (marker : Str) :
    afterMarker keys marker <:+ keys := by
  induction keys with
  | nil => simp [afterMarker]
  | cons k rest ih =>
    by_cases h : marker = []
    · simp [afterMarker, h]
    · simp only [afterMarker, if_neg h]
      by_cases hk : k = marker
      · rw [if_pos hk]
        exact List.suffix_cons k rest
      · rw [if_neg hk]
        exact ih.trans (List.suffix_cons k rest)

/-- Resuming after a marker that occurs exactly once, at the shown position,
yields exactly what follows it. -/
theorem afterMarker_append (l₁ l₂ : List Str) (k : Str) (hk : k ≠ [])
    (hmem : k ∉ l₁) : afterMarker (l₁ ++ k :: l₂) k = l₂ := by
  induction l₁ with
  | nil => simp [afterMarker, hk]
  | cons a rest ih =>
    have ha : ¬(a = k) := fun h => hmem (h ▸ List.mem_cons_self a rest)
    have hr : k ∉ rest := fun h => hmem (List.mem_cons_of_mem a h)
    simp [afterMarker, hk, ha, ih hr]

theorem listLoop_ossProvider (s : OSSStorage) (keys : List Str) (hnd : keys.Nodup)
    (hpre : ∀ k ∈ keys, s.addPrefix (s.removePrefix k) = k)
    (q marker : Str) (m : Int) (acc : List Str) :
    listLoop s (ossProvider keys) q marker m acc =
      .ok (acc ++ ((afterMarker keys marker).map s.removePrefix).take m.toNat) := by
  by_cases hm : 0 < m
  · have hRn : (if m < 1000 then m else (1000 : Int)).toNat = min m.toNat 1000 :=
      maxReq_toNat m hm
    rw [listLoop, dif_pos hm]
    simp only [ossProvider, hRn]
    simp only [List.map_map, Function.comp_def, min_assoc, min_self,
      decide_eq_true_eq]
    by_cases htr : min m.toNat 1000 < (afterMarker keys marker).length
    · rw [if_pos htr]
      set avail := afterMarker keys marker with havail
      set N : Nat := min m.toNat 1000 with hN
      have hN1 : 1 ≤ N := by omega
      have hNm : N ≤ m.toNat := by omega
      have hNa : N - 1 < avail.length := by omega
      obtain ⟨a, ha⟩ : ∃ x, avail[N - 1]? = some x :=
        ⟨_, List.getElem?_eq_getElem hNa⟩
      have hamem : a ∈ keys :=
        (afterMarker_suffix keys marker).sublist.subset (List.getElem?_mem ha)
      have ha' : s.addPrefix (s.removePrefix a) = a := hpre a hamem
      have htake : avail.take N = avail.take (N - 1) ++ [a] := by
        conv_lhs => rw [show N = (N - 1) + 1 by omega]
        rw [List.take_succ, ha]
        rfl
      rw [htake]
      simp only [List.map_append, List.map_cons, List.map_nil,
        ← List.append_assoc, List.getLast?_concat]
      rw [ha']
      -- the continuation: afterMarker keys a is what follows a
      have hanil : a ≠ [] := by
        rw [← ha']
        exact addPrefix_ne_nil s (s.removePrefix a)
      obtain ⟨front, hfront⟩ := afterMarker_suffix keys marker
      have hkeys : keys = (front ++ avail.take (N - 1)) ++ a :: avail.drop N := by
        rw [← hfront, ← havail]
        conv_lhs => rw [← List.take_append_drop N avail]
        rw [htake]
        simp [List.append_assoc]
      have hnotmem : a ∉ front ++ avail.take (N - 1) := by
        have hnd2 := hnd
        rw [hkeys, List.nodup_append] at hnd2
        exact fun hin => hnd2.2.2 hin (List.mem_cons_self a _)
      have hcont : afterMarker keys a = avail.drop N := by
        rw [hkeys]
        exact afterMarker_append _ _ a hanil hnotmem
      have hAB : acc ++ List.map (fun x => s.removePrefix x) (avail.take (N - 1))
            ++ [s.removePrefix a]
          = acc ++ (avail.map s.removePrefix).take N := by
        rw [← List.map_take, htake]
        simp
      rw [hAB]
      rw [listLoop_ossProvider s keys hnd hpre q a
        (m - if m < 1000 then m else 1000)
        (acc ++ (avail.map s.removePrefix).take N)]
      rw [hcont]
      have hsub : (m - if m < 1000 then m else (1000 : Int)).toNat = m.toNat - N := by
        rw [hN]
        split <;> omega
      rw [hsub, List.map_drop, List.append_assoc, ← List.take_add]
      rw [show N + (m.toNat - N) = m.toNat by omega]
    · rw [if_neg htr]
      have hlen : (afterMarker keys marker).length ≤ min m.toNat 1000 := by omega
      rw [List.take_of_length_le hlen,
        List.take_of_length_le (by simpa using hlen.trans (by omega))]
  · rw [listLoop, dif_neg hm]
    have h0 : m.toNat = 0 := by omega
    simp [h0]
termination_by m.toNat
decreasing_by
  simp_wf
  split <;> omega

/-- Every request size the loop issues is at most 1000, whatever the provider
answers. -/
theorem listRequestSizes_le (s : OSSStorage) (op : ListOp) (pfx marker : Str)
    (m : Int) (items : List Str) :
    ∀ r ∈ listRequestSizes s op pfx marker m items, r ≤ 1000 := by
  intro r hr
  have hR : (if m < 1000 then m else (1000 : Int)) ≤ 1000 := by split <;> omega
  rw [listRequestSizes] at hr
  by_cases hm : 0 < m
  · rw [dif_pos hm] at hr
    simp only [] at hr
    split at hr
    · rw [List.mem_singleton] at hr
      rw [hr]
      exact hR
    · split at hr
      · split at hr
        · rw [List.mem_singleton] at hr
          rw [hr]
          exact hR
        · rcases List.mem_cons.mp hr with h | h
          · rw [h]
            exact hR
          · exact listRequestSizes_le s op pfx _ _ _ r h
      · rw [List.mem_singleton] at hr
        rw [hr]
        exact hR
  · rw [dif_neg hm] at hr
    simp at hr
termination_by m.toNat
decreasing_by
  simp_wf
  split <;> omega

/-- Resuming after the empty marker yields the whole key list. -/
theorem afterMarker_empty (keys : List Str) : afterMarker keys [] = keys := by
  cases keys <;> simp [afterMarker]

/-- Main corollary: against the well-behaved provider, a full `List` call
returns the first `N` logical paths in provider order. -/
theorem List_ossProvider (s : OSSStorage) (q : Str) (paths : List Str)
    (N : Int) (hnd : paths.Nodup) :
    OSSStorage.List s (ossProvider (paths.map s.addPrefix)) q N
      = ListOutcome.ok (paths.take N.toNat) := by
  have hinj : Function.Injective s.addPrefix := by
    intro x y hxy
    have h2 := congrArg s.removePrefix hxy
    rwa [removePrefix_addPrefix, removePrefix_addPrefix] at h2
  have hnd2 : (paths.map s.addPrefix).Nodup := hnd.map hinj
  have hpre : ∀ k ∈ paths.map s.addPrefix, s.addPrefix (s.removePrefix k) = k := by
    intro k hk
    obtain ⟨p, _, rfl⟩ := List.mem_map.mp hk
    rw [removePrefix_addPrefix]
  rw [OSSStorage.List, listLoop_ossProvider s (paths.map s.addPrefix) hnd2 hpre]
  rw [afterMarker_empty, List.map_map]
  have hcomp : s.removePrefix ∘ s.addPrefix = id := funext (removePrefix_addPrefix s)
  rw [hcomp, List.map_id, List.nil_append]

/-- C1: when exactly the objects `paths` (stored under their prefixed keys)
exist at the provider and the requested count is positive, `List` returns
exactly min(N, M) logical paths, in provider order, and no single page
request asks for more than 1000 keys. -/
theorem C1_pagination_exactness (s : OSSStorage) (q : Str) (paths : List Str)
    (N : Int) (hN : 0 < N) (hnd : paths.Nodup) :
    OSSStorage.List s (ossProvider (paths.map s.addPrefix)) q N
        = ListOutcome.ok (paths.take N.toNat)
    ∧ (paths.take N.toNat).length = min N.toNat paths.length
    ∧ ∀ r ∈ listRequests s (ossProvider (paths.map s.addPrefix)) q N, r ≤ 1000 := by
  refine ⟨List_ossProvider s q paths N hnd, ?_, ?_⟩
  · rw [List.length_take]
  · intro r hr
    exact listRequestSizes_le s (ossProvider (paths.map s.addPrefix)) _ _ _ _ r hr

/-- C1 witness: the pagination theorem at a concrete provider holding three
objects, with a budget of two. -/
theorem C1_pagination_exactness_witness :
    OSSStorage.List sampleStorage
        (ossProvider (samplePaths.map sampleStorage.addPrefix)) [] 2
        = ListOutcome.ok (samplePaths.take (2 : Int).toNat)
    ∧ (samplePaths.take (2 : Int).toNat).length = min (2 : Int).toNat samplePaths.length
    ∧ ∀ r ∈ listRequests sampleStorage
        (ossProvider (samplePaths.map sampleStorage.addPrefix)) [] 2, r ≤ 1000 :=
  C1_pagination_exactness sampleStorage [] samplePaths 2 (by decide) (by decide)

/-- C2: in an iteration of the list loop with budget m > 0 whose request the
provider answers with `page`, the request issued has size min(m, 1000); when
the page is not truncated the loop stops with the appended items; when it is
truncated the loop continues with budget m - min(m, 1000) (the request size,
not the returned count) and with the marker set to the re-prefixed last
appended item. -/
theorem C2_loop_step (s : OSSStorage) (op : ListOp) (q marker : Str) (m : Int)
    (acc : List Str) (page : ListResp) (hm : 0 < m)
    (hreq : op q [] marker (min m 1000) = .ok page) :
    (listRequestSizes s op q marker m acc).head? = some (min m 1000)
    ∧ (page.isTruncated = false →
        listLoop s op q marker m acc
          = ListOutcome.ok (acc ++ page.contents.map (fun o => s.removePrefix o.key)))
    ∧ (∀ lastItem, page.isTruncated = true →
        (acc ++ page.contents.map (fun o => s.removePrefix o.key)).getLast?
            = some lastItem →
        listLoop s op q marker m acc
          = listLoop s op q (s.addPrefix lastItem) (m - min m 1000)
              (acc ++ page.contents.map (fun o => s.removePrefix o.key))) := by
  have hif : (if m < 1000 then m else (1000 : Int)) = min m 1000 := by
    split <;> omega
  refine ⟨?_, ?_, ?_⟩
  · rw [listRequestSizes, dif_pos hm, hif]
    simp only [hreq]
    split
    · split <;> rfl
    · rfl
  · intro hfalse
    rw [listLoop, dif_pos hm, hif]
    simp [hreq, hfalse]
  · intro lastItem htrue hlast
    rw [listLoop, dif_pos hm, hif]
    simp only [hreq, htrue, if_true, hlast]

/-- C2 witness: the loop-step theorem at a concrete provider answer. -/
theorem C2_loop_step_witness :
    (listRequestSizes sampleStorage sampleListOp [] [] 5 []).head? = some (min 5 1000)
    ∧ (samplePage.isTruncated = false →
        listLoop sampleStorage sampleListOp [] [] 5 []
          = ListOutcome.ok (([] : List Str) ++ samplePage.contents.map
              (fun o => sampleStorage.removePrefix o.key)))
    ∧ (∀ lastItem, samplePage.isTruncated = true →
        (([] : List Str) ++ samplePage.contents.map
            (fun o => sampleStorage.removePrefix o.key)).getLast? = some lastItem →
        listLoop sampleStorage sampleListOp [] [] 5 []
          = listLoop sampleStorage sampleListOp [] (sampleStorage.addPrefix lastItem) (5 - min 5 1000)
              (([] : List Str) ++ samplePage.contents.map
                (fun o => sampleStorage.removePrefix o.key))) :=
  C2_loop_step sampleStorage sampleListOp [] [] 5 [] samplePage (by decide) rfl

/-- C10: a truncated page arriving while no item has been appended yet makes
the marker update index an empty slice, and the loop panics. -/
theorem C10_empty_truncation_panics (s : OSSStorage) (op : ListOp)
    (q marker : Str) (m : Int) (page : ListResp) (hm : 0 < m)
    (hreq : op q [] marker (min m 1000) = .ok page)
    (htr : page.isTruncated = true) (hc : page.contents = []) :
    listLoop s op q marker m [] = ListOutcome.panics := by
  have hif : (if m < 1000 then m else (1000 : Int)) = min m 1000 := by
    split <;> omega
  rw [listLoop, dif_pos hm, hif]
  simp [hreq, hc, htr]

/-- C10 witness: the panic at a concrete provider whose first page is empty
and truncated. -/
theorem C10_empty_truncation_panics_witness :
    listLoop sampleStorage truncEmptyOp [] [] 5 [] = ListOutcome.panics :=
  C10_empty_truncation_panics sampleStorage truncEmptyOp [] [] 5 ⟨[], true⟩
    (by decide) rfl rfl rfl

/-- C3: during construction a bucket-creation request is issued exactly when
the one-key existence probe errors; a successful probe skips creation and
construction succeeds; when probe and creation both fail, construction
returns the creation error and no adapter. -/
theorem C3_provisioning (op : ListOp) (putBucket : ACL → Except String Unit)
    (bucketName pfx region : Str) (acl : ACL) :
    ((NewOSSStorage op putBucket bucketName pfx region acl).2 = true
       ↔ ∃ e, op [] [ '/' ] [] 1 = .error e)
    ∧ (∀ r, op [] [ '/' ] [] 1 = .ok r →
        NewOSSStorage op putBucket bucketName pfx region acl
          = (.ok ⟨bucketName, region, pfx⟩, false))
    ∧ (∀ e e2, op [] [ '/' ] [] 1 = .error e → putBucket acl = .error e2 →
        NewOSSStorage op putBucket bucketName pfx region acl
          = (.error e2, true)) := by
  cases hop : op [] [ '/' ] [] 1 with
  | error e =>
    cases hpb : putBucket acl with
    | error e2 => simp [NewOSSStorage, hop, hpb]
    | ok u => simp [NewOSSStorage, hop, hpb]
  | ok r => simp [NewOSSStorage, hop]

/-- C4: `Get` maps a provider error whose message is exactly the not-found
text to the typed not-found error and passes any other message through
unchanged, while `Delete` and `List` pass every provider error through
unchanged — the not-found text included. -/
theorem C4_notfound_mapping (s : OSSStorage)
    (getResponse : Str → Except String GetResp)
    (del : Str → Except String Unit) (op : ListOp)
    (path q : Str) (m : Int) (e : String) :
    (getResponse (s.addPrefix path) = .error noSuchKeyText →
       s.Get getResponse path = .error (.notFound (s.addPrefix path)))
    ∧ (getResponse (s.addPrefix path) = .error e → e ≠ noSuchKeyText →
       s.Get getResponse path = .error (.provider e))
    ∧ (del (s.addPrefix path) = .error e →
       s.Delete del path = .error (.provider e))
    ∧ (0 < m → op (s.addPrefix q) [] [] (min m 1000) = .error e →
       s.List op q m = .err e) := by
  refine ⟨?_, ?_, ?_, ?_⟩
  · intro h
    simp [OSSStorage.Get, h]
  · intro h hne
    simp [OSSStorage.Get, h, hne]
  · intro h
    simp [OSSStorage.Delete, h]
  · intro hm h
    have hif : (if m < 1000 then m else (1000 : Int)) = min m 1000 := by
      split <;> omega
    rw [OSSStorage.List, listLoop, dif_pos hm, hif]
    simp [h]

/-- C5: on a successful provider read, a missing or empty `Etag` header is an
error; otherwise the first header value, one leading and one trailing quote
removed, is hex-decoded, a decode failure is returned as the error, and on
success the body is returned wrapped with the decoded checksum. -/
theorem C5_checksum_header (s : OSSStorage)
    (getResponse : Str → Except String GetResp) (path : Str) (resp : GetResp)
    (hok : getResponse (s.addPrefix path) = .ok resp) :
    (resp.header.lookup "Etag" = none →
       s.Get getResponse path = .error (.msg "No Etag header"))
    ∧ (resp.header.lookup "Etag" = some [] →
       s.Get getResponse path = .error (.msg "Etag header is empty"))
    ∧ (∀ v rest e, resp.header.lookup "Etag" = some (v :: rest) →
        hexDecode (trimSuffix (trimPrefix v [ '\"' ]) [ '\"' ]) = .error e →
        s.Get getResponse path = .error e)
    ∧ (∀ v rest checksum, resp.header.lookup "Etag" = some (v :: rest) →
        hexDecode (trimSuffix (trimPrefix v [ '\"' ]) [ '\"' ]) = .ok checksum →
        s.Get getResponse path = .ok ⟨resp.body, checksum⟩) := by
  refine ⟨?_, ?_, ?_, ?_⟩
  · intro h
    simp [OSSStorage.Get, hok, h]
  · intro h
    simp [OSSStorage.Get, hok, h]
  · intro v rest e h hdec
    simp [OSSStorage.Get, hok, h, hdec]
  · intro v rest checksum h hdec
    simp [OSSStorage.Get, hok, h, hdec]

/-- C6: stripping the configured prefix from the prefixed form of a logical
path reproduces the path exactly — for every path, with no proviso needed. -/
theorem C6_prefix_roundtrip (s : OSSStorage) (path : Str) :
    s.removePrefix (s.addPrefix path) = path :=
  removePrefix_addPrefix s path

/-- C5 witness: the checksum-header theorem at a concrete response carrying
a quoted hexadecimal Etag. -/
theorem C5_checksum_header_witness :
    (sampleResp.header.lookup "Etag" = none →
       sampleStorage.Get sampleGetResponse "x".data = .error (.msg "No Etag header"))
    ∧ (sampleResp.header.lookup "Etag" = some [] →
       sampleStorage.Get sampleGetResponse "x".data = .error (.msg "Etag header is empty"))
    ∧ (∀ v rest e, sampleResp.header.lookup "Etag" = some (v :: rest) →
        hexDecode (trimSuffix (trimPrefix v [ '\"' ]) [ '\"' ]) = .error e →
        sampleStorage.Get sampleGetResponse "x".data = .error e)
    ∧ (∀ v rest checksum, sampleResp.header.lookup "Etag" = some (v :: rest) →
        hexDecode (trimSuffix (trimPrefix v [ '\"' ]) [ '\"' ]) = .ok checksum →
        sampleStorage.Get sampleGetResponse "x".data = .ok ⟨sampleResp.body, checksum⟩) :=
  C5_checksum_header sampleStorage sampleGetResponse "x".data sampleResp rfl

/-- C7 counterexample: an adapter constructed with the configured ACL
public-read still issues every write with ACL private, so the write request
does not carry the configured access-control value. -/
theorem C7_put_acl_counterexample :
    (NewOSSStorage (fun _ _ _ _ => .ok ⟨[], false⟩) (fun _ => .ok ())
        "bucket".data "backup".data "region".data ossPublicRead).1
      = Except.ok ⟨"bucket".data, "region".data, "backup".data⟩
    ∧ (OSSStorage.Put ⟨"bucket".data, "region".data, "backup".data⟩
        (fun _ => .ok ()) "x".data [7, 8]).2
      = [⟨"backup/x".data, [7, 8], "application/octet-stream", ossPrivate⟩]
    ∧ ossPrivate ≠ ossPublicRead := by
  refine ⟨rfl, by decide, by decide⟩

/-- C7 amended: every write request carries the fixed content type and the
fixed ACL private, whatever ACL was configured at construction. -/
theorem C7_put_fixed_content_type_and_acl (s : OSSStorage)
    (putOp : PutReq → Except String Unit) (path : Str) (data : List Nat) :
    (s.Put putOp path data).2
      = [⟨s.addPrefix path, data, "application/octet-stream", ossPrivate⟩] := rfl

/-- C8 counterexample: `Get` on an absent key returns a not-found error that
identifies the object by the prefixed provider key, not the logical path. -/
theorem C8_prefix_leak_counterexample :
    OSSStorage.Get ⟨"bucket".data, "region".data, "backup".data⟩
        (fun _ => .error "The specified key does not exist.") "x".data
      = .error (.notFound "backup/x".data)
    ∧ "backup/x".data ≠ "x".data := by
  refine ⟨rfl, by decide⟩

/-- C8 amended: `List` strips the prefix from every key it returns, but the
not-found error of `Get` carries the prefixed provider key. -/
theorem C8_prefix_hiding (s : OSSStorage)
    (getResponse : Str → Except String GetResp) (q path : Str)
    (paths : List Str) (N : Int) (hnd : paths.Nodup)
    (hget : getResponse (s.addPrefix path) = .error noSuchKeyText) :
    OSSStorage.List s (ossProvider (paths.map s.addPrefix)) q N
        = ListOutcome.ok (paths.take N.toNat)
    ∧ s.Get getResponse path = .error (.notFound (s.addPrefix path)) := by
  refine ⟨List_ossProvider s q paths N hnd, ?_⟩
  simp [OSSStorage.Get, hget]

/-- C8 amended witness: the amended theorem at a concrete storage handle. -/
theorem C8_prefix_hiding_witness :
    OSSStorage.List sampleStorage
        (ossProvider (samplePaths.map sampleStorage.addPrefix)) [] 1
        = ListOutcome.ok (samplePaths.take (1 : Int).toNat)
    ∧ sampleStorage.Get notFoundGet "x".data
        = .error (.notFound (sampleStorage.addPrefix "x".data)) :=
  C8_prefix_hiding sampleStorage notFoundGet [] "x".data samplePaths 1
    (by decide) rfl

/-- C9: `PutReader` on a successful read is exactly `Put` on the bytes read
(same result and same issued requests); on a failed read it returns the read
error and issues no write request. -/
theorem C9_putreader_delegates (s : OSSStorage)
    (putOp : PutReq → Except String Unit) (path : Str) (data : List Nat)
    (e : String) :
    OSSStorage.PutReader s putOp (.ok data) path = s.Put putOp path data
    ∧ OSSStorage.PutReader s putOp (.error e) path
        = (.error (.provider e), []) :=
  ⟨rfl, rfl⟩
